import Mathlib

/-!
Shallow embedding of the `image-mrc` crate (MRC image decoder skeleton).

Conventions of the embedding:
* machine integers (`u8`, `u16`, `u32`, `u64`, `usize`, `i32`, ...) are
  modelled as `Nat` (values of signed reads as `Int`); bytes are `Nat`
  values below 256;
* floating point values (`f32`, `f64`) are modelled by their IEEE bit
  patterns as `Nat`: the code never performs float arithmetic, it only
  moves bit patterns around via `from_bits`/`to_bits`, which are bijections;
* a seekable byte source (`R: Read + Seek`) is modelled as `StreamState`,
  a byte list together with a cursor position;
* fallible operations return `Except`.
-/

/-- Byte order of the MRC file (`src/decoder/stream.rs`). -/
inductive ByteOrder where
  | littleEndian
  | bigEndian
deriving DecidableEq, Repr

/-- Model of `std::io::Error` as far as the decoder produces it:
`read_exact` on a short read yields an unexpected-EOF error. -/
inductive IoErrorKind where
  | unexpectedEof
deriving DecidableEq, Repr

/-- Values appearing in format errors (`src/decoder/ifd.rs`, `enum Value`).
Floats are represented by their bit patterns. -/
inductive Value where
  | byte (v : Nat)
  | signed (v : Int)
  | signedBig (v : Int)
  | unsigned (v : Nat)
  | unsignedBig (v : Nat)
  | float (bits : Nat)
  | double (bits : Nat)
  | list (vs : List Value)
  | rational (a b : Nat)
  | rationalBig (a b : Nat)
  | srational (a b : Int)
  | srationalBig (a b : Int)
  | ascii (s : String)
deriving Repr

/-- An enumeration over supported modes (`src/lib.rs`, `enum Mode`). -/
inductive Mode where
  | mode0
  | mode1
  | mode2
  | mode3
  | mode4
  | mode6
  | imod
  | epu
  | ive
  | mode16
deriving DecidableEq, Repr

/-- The image is not formatted properly (`src/error.rs`, `enum MrcFormatError`). -/
inductive MrcFormatError where
  | byteExpected (v : Value)
  | unsignedIntegerExpected (v : Value)
  | signedIntegerExpected (v : Value)
  | format (s : String)
deriving Repr

/-- The decoder does not support features required by the image
(`src/error.rs`, `enum MrcUnsupportedError`). The source enumerates
`UnsupportedMode(Mode)` and `UnsupportedDataType`. The constructor
`unsupportedModeCode` is Modelled from the spec: the mode-resolution
function is absent from the sources, and the spec requires the
unsupported-feature error to name the offending wire code (which for an
unrecognized code cannot be expressed as a `Mode`). -/
inductive MrcUnsupportedError where
  | unsupportedMode (m : Mode)
  | unsupportedDataType
  | unsupportedModeCode (code : Int)
deriving Repr

/-- Mrc error kinds (`src/error.rs`, `enum MrcError`). -/
inductive MrcError where
  | formatError (e : MrcFormatError)
  | unsupportedError (e : MrcUnsupportedError)
  | ioError (e : IoErrorKind)
  | limitsExceeded
deriving Repr

/-- Decoding limits (`src/decoder/mod.rs`, `struct Limits`). -/
structure Limits where
  decoding_buffer_size : Nat
  ifd_value_size : Nat
  intermediate_buffer_size : Nat
deriving Repr

/-- `impl Default for Limits` (`src/decoder/mod.rs`). -/
def Limits.default : Limits :=
  { decoding_buffer_size := 256 * 1024 * 1024
  , intermediate_buffer_size := 128 * 1024 * 1024
  , ifd_value_size := 1024 * 1024 }

/-- Result of a decoding process (`src/decoder/mod.rs`, `enum DecodingResult`).
Element values are bit patterns / machine-integer values as `Nat`. -/
inductive DecodingResult where
  | u8 (buf : List Nat)
  | u16 (buf : List Nat)
  | u32 (buf : List Nat)
  | u64 (buf : List Nat)
  | f32 (buf : List Nat)
  | f64 (buf : List Nat)
deriving Repr

/-- `DecodingResult::new_u8`: rejects with `LimitsExceeded` when
`size > limits.decoding_buffer_size`, otherwise allocates `vec![0; size]`. -/
def DecodingResult.new_u8 (size : Nat) (limits : Limits) :
    Except MrcError DecodingResult :=
  if size > limits.decoding_buffer_size then
    .error .limitsExceeded
  else
    .ok (.u8 (List.replicate size 0))

/-- `DecodingResult::new_u16`: the source compares against
`limits.decoding_buffer_size / 2`. -/
def DecodingResult.new_u16 (size : Nat) (limits : Limits) :
    Except MrcError DecodingResult :=
  if size > limits.decoding_buffer_size / 2 then
    .error .limitsExceeded
  else
    .ok (.u16 (List.replicate size 0))

/-- `DecodingResult::new_u32`: compares against `decoding_buffer_size / 4`. -/
def DecodingResult.new_u32 (size : Nat) (limits : Limits) :
    Except MrcError DecodingResult :=
  if size > limits.decoding_buffer_size / 4 then
    .error .limitsExceeded
  else
    .ok (.u32 (List.replicate size 0))

/-- `DecodingResult::new_u64`: compares against `decoding_buffer_size / 8`. -/
def DecodingResult.new_u64 (size : Nat) (limits : Limits) :
    Except MrcError DecodingResult :=
  if size > limits.decoding_buffer_size / 8 then
    .error .limitsExceeded
  else
    .ok (.u64 (List.replicate size 0))

/-- `DecodingResult::new_f32`: compares against
`decoding_buffer_size / size_of::<f32>()`, i.e. `/ 4`. -/
def DecodingResult.new_f32 (size : Nat) (limits : Limits) :
    Except MrcError DecodingResult :=
  if size > limits.decoding_buffer_size / 4 then
    .error .limitsExceeded
  else
    .ok (.f32 (List.replicate size 0))

/-- `DecodingResult::new_f64`: compares against
`decoding_buffer_size / size_of::<f64>()`, i.e. `/ 8`. -/
def DecodingResult.new_f64 (size : Nat) (limits : Limits) :
    Except MrcError DecodingResult :=
  if size > limits.decoding_buffer_size / 8 then
    .error .limitsExceeded
  else
    .ok (.f64 (List.replicate size 0))

/-- A seekable byte source together with its read cursor: the model of the
`R: Read + Seek` parameter the decoder is generic over. `data` is the whole
underlying byte stream, `pos` the current cursor. -/
structure StreamState where
  data : List Nat
  pos : Nat
deriving DecidableEq, Repr

/-- Every byte of the stream is an actual byte value (below 256). -/
def StreamState.wf (s : StreamState) : Prop :=
  ∀ b ∈ s.data, b < 256

/-- `Read::read_exact` on the modelled source: succeed returning exactly `n`
bytes from the cursor and advance the cursor by `n`, or fail with an
unexpected-EOF I/O error when fewer than `n` bytes remain. -/
def read_exact (s : StreamState) (n : Nat) :
    Except IoErrorKind (List Nat × StreamState) :=
  if s.pos + n ≤ s.data.length then
    .ok ((s.data.drop s.pos).take n, ⟨s.data, s.pos + n⟩)
  else
    .error .unexpectedEof

/-- The `n` bytes of the stream starting at the cursor. -/
def bytesAt (s : StreamState) (n : Nat) : List Nat :=
  (s.data.drop s.pos).take n

/-- `uN::from_le_bytes`: little-endian value of a byte list
(first byte least significant). -/
def fromLeBytes (bs : List Nat) : Nat :=
  bs.foldr (fun b acc => b + 256 * acc) 0

/-- `uN::from_be_bytes`: big-endian value of a byte list
(first byte most significant). -/
def fromBeBytes (bs : List Nat) : Nat :=
  fromLeBytes bs.reverse

/-- The `w` little-endian bytes of a value (`uN::to_le_bytes`). -/
def toLeBytes : Nat → Nat → List Nat
  | 0, _ => []
  | w + 1, x => x % 256 :: toLeBytes w (x / 256)

/-- `uN::swap_bytes` for a `w`-byte integer. -/
def swapBytes (w x : Nat) : Nat :=
  fromLeBytes (toLeBytes w x).reverse

/-- Reinterpret the unsigned `bits`-bit value `x` as a signed two-complement
integer (`iN::from_le_bytes` on the same bytes). -/
def toSigned (bits x : Nat) : Int :=
  if x < 2 ^ (bits - 1) then (x : Int) else (x : Int) - 2 ^ bits

/-- The byte-order dependent integer interpretation of a byte list: the
`match self.byte_order()` arm shared by every scalar read in
`src/decoder/stream.rs`. -/
def interpOrder (order : ByteOrder) (bs : List Nat) : Nat :=
  match order with
  | .littleEndian => fromLeBytes bs
  | .bigEndian => fromBeBytes bs

/-- The interpretation a machine with native byte order `host` gives to the
raw bytes of one in-memory `w`-byte element (what `bytecast` exposes). -/
def interpNative (host : ByteOrder) (bs : List Nat) : Nat :=
  match host with
  | .littleEndian => fromLeBytes bs
  | .bigEndian => fromBeBytes bs

/-- `uN::from_le` on a host with native order `host`: identity on a
little-endian machine, byte swap on a big-endian machine. -/
def fromLe (host : ByteOrder) (w x : Nat) : Nat :=
  match host with
  | .littleEndian => x
  | .bigEndian => swapBytes w x

/-- `uN::from_be` on a host with native order `host`. -/
def fromBe (host : ByteOrder) (w x : Nat) : Nat :=
  match host with
  | .bigEndian => x
  | .littleEndian => swapBytes w x

/-- `EndianReader::read_u16` (`src/decoder/stream.rs`): `read_exact` into a
2-byte array, then `u16::from_le_bytes` or `u16::from_be_bytes` per the
configured order. -/
def read_u16 (order : ByteOrder) (s : StreamState) :
    Except IoErrorKind (Nat × StreamState) :=
  match read_exact s 2 with
  | .error e => .error e
  | .ok (n, s1) =>
    .ok (match order with
         | .littleEndian => fromLeBytes n
         | .bigEndian => fromBeBytes n, s1)

/-- `EndianReader::read_i16`: like `read_u16` with `i16::from_le_bytes` /
`i16::from_be_bytes`, i.e. the signed reinterpretation of the same bytes. -/
def read_i16 (order : ByteOrder) (s : StreamState) :
    Except IoErrorKind (Int × StreamState) :=
  match read_exact s 2 with
  | .error e => .error e
  | .ok (n, s1) =>
    .ok (toSigned 16 (match order with
                      | .littleEndian => fromLeBytes n
                      | .bigEndian => fromBeBytes n), s1)

/-- `EndianReader::read_u32`. -/
def read_u32 (order : ByteOrder) (s : StreamState) :
    Except IoErrorKind (Nat × StreamState) :=
  match read_exact s 4 with
  | .error e => .error e
  | .ok (n, s1) =>
    .ok (match order with
         | .littleEndian => fromLeBytes n
         | .bigEndian => fromBeBytes n, s1)

/-- `EndianReader::read_i32`. -/
def read_i32 (order : ByteOrder) (s : StreamState) :
    Except IoErrorKind (Int × StreamState) :=
  match read_exact s 4 with
  | .error e => .error e
  | .ok (n, s1) =>
    .ok (toSigned 32 (match order with
                      | .littleEndian => fromLeBytes n
                      | .bigEndian => fromBeBytes n), s1)

/-- `EndianReader::read_u64`. -/
def read_u64 (order : ByteOrder) (s : StreamState) :
    Except IoErrorKind (Nat × StreamState) :=
  match read_exact s 8 with
  | .error e => .error e
  | .ok (n, s1) =>
    .ok (match order with
         | .littleEndian => fromLeBytes n
         | .bigEndian => fromBeBytes n, s1)

/-- `EndianReader::read_f32`: reads 4 bytes, converts with the configured
order and returns `f32::from_bits` of the result; in the bit-pattern model
of floats the returned value is that `u32`. -/
def read_f32 (order : ByteOrder) (s : StreamState) :
    Except IoErrorKind (Nat × StreamState) :=
  match read_exact s 4 with
  | .error e => .error e
  | .ok (n, s1) =>
    .ok (match order with
         | .littleEndian => fromLeBytes n
         | .bigEndian => fromBeBytes n, s1)

/-- `EndianReader::read_f64`: reads 8 bytes, converts with the configured
order and returns `f64::from_bits` of the result. -/
def read_f64 (order : ByteOrder) (s : StreamState) :
    Except IoErrorKind (Nat × StreamState) :=
  match read_exact s 8 with
  | .error e => .error e
  | .ok (n, s1) =>
    .ok (match order with
         | .littleEndian => fromLeBytes n
         | .bigEndian => fromBeBytes n, s1)

/-- The contents a pre-sized element buffer holds after `read_exact` has
filled its raw memory with `bs`: the machine reads each `w`-byte group in
its native order. First argument after `w` is the element count.
Modelled from the spec: the `bytecast` module (declared as `mod bytecast`
in `src/lib.rs` but absent from the sources) reinterprets a typed element
buffer as its raw native-order bytes, so the bulk reads can fill raw bytes
in one pass before the per-element byte-order correction. -/
def chunkNative (host : ByteOrder) (w : Nat) : Nat → List Nat → List Nat
  | 0, _ => []
  | n + 1, bs => interpNative host (bs.take w) :: chunkNative host w n (bs.drop w)

/-- `EndianReader::read_u16_into` (`src/decoder/stream.rs`): one
`read_exact` into the byte view of the buffer, then `*n = u16::from_le(*n)`
(little-endian order) or `*n = u16::from_be(*n)` (big-endian order) for
each element. The pre-sized buffer is modelled by its length `n` and the
call returns the element values it ends up holding; `host` is the native
byte order of the machine the code runs on. -/
def read_u16_into (host order : ByteOrder) (n : Nat) (s : StreamState) :
    Except IoErrorKind (List Nat × StreamState) :=
  match read_exact s (2 * n) with
  | .error e => .error e
  | .ok (bytes, s1) =>
    .ok ((chunkNative host 2 n bytes).map (fun x =>
          match order with
          | .littleEndian => fromLe host 2 x
          | .bigEndian => fromBe host 2 x), s1)

/-- `EndianReader::read_u32_into`. -/
def read_u32_into (host order : ByteOrder) (n : Nat) (s : StreamState) :
    Except IoErrorKind (List Nat × StreamState) :=
  match read_exact s (4 * n) with
  | .error e => .error e
  | .ok (bytes, s1) =>
    .ok ((chunkNative host 4 n bytes).map (fun x =>
          match order with
          | .littleEndian => fromLe host 4 x
          | .bigEndian => fromBe host 4 x), s1)

/-- `EndianReader::read_u64_into`. -/
def read_u64_into (host order : ByteOrder) (n : Nat) (s : StreamState) :
    Except IoErrorKind (List Nat × StreamState) :=
  match read_exact s (8 * n) with
  | .error e => .error e
  | .ok (bytes, s1) =>
    .ok ((chunkNative host 8 n bytes).map (fun x =>
          match order with
          | .littleEndian => fromLe host 8 x
          | .bigEndian => fromBe host 8 x), s1)

/-- `EndianReader::read_f32_into`: per element the source computes
`f32::from_bits(u32::from_le(n.to_bits()))` (resp. `from_be`); in the
bit-pattern model of floats this is exactly the `u32` correction. -/
def read_f32_into (host order : ByteOrder) (n : Nat) (s : StreamState) :
    Except IoErrorKind (List Nat × StreamState) :=
  match read_exact s (4 * n) with
  | .error e => .error e
  | .ok (bytes, s1) =>
    .ok ((chunkNative host 4 n bytes).map (fun x =>
          match order with
          | .littleEndian => fromLe host 4 x
          | .bigEndian => fromBe host 4 x), s1)

/-- `EndianReader::read_f64_into`. -/
def read_f64_into (host order : ByteOrder) (n : Nat) (s : StreamState) :
    Except IoErrorKind (List Nat × StreamState) :=
  match read_exact s (8 * n) with
  | .error e => .error e
  | .ok (bytes, s1) =>
    .ok ((chunkNative host 8 n bytes).map (fun x =>
          match order with
          | .littleEndian => fromLe host 8 x
          | .bigEndian => fromBe host 8 x), s1)

/-- `n` successive calls of `read_u16`, collecting the values in order:
the scalar-read reference behaviour the bulk read is compared against. -/
def read_u16_seq (order : ByteOrder) : Nat → StreamState →
    Except IoErrorKind (List Nat × StreamState)
  | 0, s => .ok ([], s)
  | n + 1, s =>
    match read_u16 order s with
    | .error e => .error e
    | .ok (v, s1) =>
      match read_u16_seq order n s1 with
      | .error e => .error e
      | .ok (vs, s2) => .ok (v :: vs, s2)

/-- `n` successive calls of `read_u32`. -/
def read_u32_seq (order : ByteOrder) : Nat → StreamState →
    Except IoErrorKind (List Nat × StreamState)
  | 0, s => .ok ([], s)
  | n + 1, s =>
    match read_u32 order s with
    | .error e => .error e
    | .ok (v, s1) =>
      match read_u32_seq order n s1 with
      | .error e => .error e
      | .ok (vs, s2) => .ok (v :: vs, s2)

/-- `n` successive calls of `read_u64`. -/
def read_u64_seq (order : ByteOrder) : Nat → StreamState →
    Except IoErrorKind (List Nat × StreamState)
  | 0, s => .ok ([], s)
  | n + 1, s =>
    match read_u64 order s with
    | .error e => .error e
    | .ok (v, s1) =>
      match read_u64_seq order n s1 with
      | .error e => .error e
      | .ok (vs, s2) => .ok (v :: vs, s2)

/-- `n` successive calls of `read_f32` (bit-pattern values). -/
def read_f32_seq (order : ByteOrder) : Nat → StreamState →
    Except IoErrorKind (List Nat × StreamState)
  | 0, s => .ok ([], s)
  | n + 1, s =>
    match read_f32 order s with
    | .error e => .error e
    | .ok (v, s1) =>
      match read_f32_seq order n s1 with
      | .error e => .error e
      | .ok (vs, s2) => .ok (v :: vs, s2)

/-- `n` successive calls of `read_f64` (bit-pattern values). -/
def read_f64_seq (order : ByteOrder) : Nat → StreamState →
    Except IoErrorKind (List Nat × StreamState)
  | 0, s => .ok ([], s)
  | n + 1, s =>
    match read_f64 order s with
    | .error e => .error e
    | .ok (v, s1) =>
      match read_f64_seq order n s1 with
      | .error e => .error e
      | .ok (vs, s2) => .ok (v :: vs, s2)

/-- Width-generic form of the scalar reads (`read_u16` is
`readScalarG order 2`, and so on): proof vehicle shared by the widths. -/
def readScalarG (order : ByteOrder) (w : Nat) (s : StreamState) :
    Except IoErrorKind (Nat × StreamState) :=
  match read_exact s w with
  | .error e => .error e
  | .ok (n, s1) => .ok (interpOrder order n, s1)

/-- The per-element byte-order correction of the bulk reads, width-generic:
`from_le` under little-endian order, `from_be` under big-endian order. -/
def corrG (host order : ByteOrder) (w : Nat) (x : Nat) : Nat :=
  match order with
  | .littleEndian => fromLe host w x
  | .bigEndian => fromBe host w x

/-- Width-generic form of the bulk reads. -/
def readBulkG (host order : ByteOrder) (w n : Nat) (s : StreamState) :
    Except IoErrorKind (List Nat × StreamState) :=
  match read_exact s (w * n) with
  | .error e => .error e
  | .ok (bytes, s1) =>
    .ok ((chunkNative host w n bytes).map (corrG host order w), s1)

/-- Width-generic form of the successive scalar reads. -/
def readSeqG (order : ByteOrder) (w : Nat) : Nat → StreamState →
    Except IoErrorKind (List Nat × StreamState)
  | 0, s => .ok ([], s)
  | n + 1, s =>
    match readScalarG order w s with
    | .error e => .error e
    | .ok (v, s1) =>
      match readSeqG order w n s1 with
      | .error e => .error e
      | .ok (vs, s2) => .ok (v :: vs, s2)

/-- Extended-header descriptor (`src/decoder/header.rs`, `struct Extra`). -/
structure Extra where
  ext_type : String
  nversion : Int
deriving Repr

/-- Origin in X, Y, Z used for transforms (`struct Origin`); `f32` fields
as bit patterns. -/
structure Origin where
  xorg : Nat
  yorg : Nat
  zorg : Nat
deriving Repr

/-- The MRC fixed header (`src/decoder/header.rs`, `struct Header`).
`i32` fields as `Int`, `f32` fields as bit patterns (`Nat`); the source
leaves most fields `Option`-wrapped as a staging artifact of incremental
parsing. -/
structure Header where
  nx : Int
  ny : Int
  nz : Int
  mode : Option Int
  nxstart : Int
  nystart : Int
  nzstart : Int
  mx : Option Int
  my : Option Int
  mz : Option Int
  xlen : Option Nat
  ylen : Option Nat
  zlen : Option Nat
  alpha : Option Nat
  beta : Option Nat
  gama : Option Nat
  mapc : Option Int
  mapr : Option Int
  maps : Option Int
  amin : Option Nat
  amax : Option Nat
  amean : Option Nat
  ispg : Option Int
  nsymbt : Option Int
  extra : Option Extra
  origin : Option Origin
  map : String
  mach_st : String
  rms : Option Nat
  nlabl : Int
  label : Option (List String)
deriving Repr

/-- `struct StripDecodeState` (`src/decoder/mod.rs`). -/
structure StripDecodeState where
  strip_index : Nat
  strip_offsets : List Nat
  strip_bytes : List Nat
deriving Repr

/-- `struct SmartReader` (`src/decoder/stream.rs`): the wrapped source and
the byte order fixed at construction. -/
structure SmartReader where
  reader : StreamState
  byte_order : ByteOrder
deriving Repr

/-- `SmartReader::wrap`. -/
def SmartReader.wrap (reader : StreamState) (byte_order : ByteOrder) :
    SmartReader :=
  { reader := reader, byte_order := byte_order }

/-- The representation of a MRC decoder (`src/decoder/mod.rs`,
`struct Decoder`). -/
structure Decoder where
  reader : SmartReader
  byte_order : ByteOrder
  limits : Limits
  width : Nat
  height : Nat
  header : Option Header
  strip_decoder : Option StripDecodeState
deriving Repr

/-- `Decoder::read_header` as it stands in the source: a `TODO` stub that
returns `Ok(())` without touching the stream or any decoder field. The
decoder is threaded explicitly in place of `&mut self`. -/
def Decoder.read_header (d : Decoder) : Except MrcError Decoder :=
  .ok d

/-- `Decoder::next_image` as it stands in the source: a `TODO` stub that
returns `Ok(())` without touching the stream or any decoder field. -/
def Decoder.next_image (d : Decoder) : Except MrcError Decoder :=
  .ok d

/-- `Decoder::init`: `self.read_header()?; self.next_image()?; Ok(self)`. -/
def Decoder.init (d : Decoder) : Except MrcError Decoder :=
  match d.read_header with
  | .error e => .error e
  | .ok d1 =>
    match d1.next_image with
    | .error e => .error e
    | .ok d2 => .ok d2

/-- `Decoder::new`: wraps the stream little-endian, zero dimensions, no
header, default limits, then `init`. -/
def Decoder.new (r : StreamState) : Except MrcError Decoder :=
  Decoder.init
    { reader := SmartReader.wrap r .littleEndian
    , byte_order := .littleEndian
    , limits := Limits.default
    , width := 0
    , height := 0
    , header := none
    , strip_decoder := none }

/-- `Decoder::with_limits`. -/
def Decoder.with_limits (d : Decoder) (limits : Limits) : Decoder :=
  { d with limits := limits }

/-- `Decoder::dimensions`: `Ok((self.width, self.height))`. -/
def Decoder.dimensions (d : Decoder) : Except MrcError (Nat × Nat) :=
  .ok (d.width, d.height)

/-- Modelled from the spec: the Mode Registry resolution function
(spec §4.3) is absent from the sources — `src/lib.rs` only declares the
`Mode` enum. A pure lookup from the wire-format integer code to the mode:
recognized wire codes are 0, 1, 2, 3, 4, 6 and 16 (the vendor variants
IMOD/EPU/IVE carry no wire code of their own, spec §9); any other code
fails with an unsupported-feature error naming the offending code, never
with a format error. -/
def Mode.resolve (code : Int) : Except MrcError Mode :=
  if code = 0 then .ok .mode0
  else if code = 1 then .ok .mode1
  else if code = 2 then .ok .mode2
  else if code = 3 then .ok .mode3
  else if code = 4 then .ok .mode4
  else if code = 6 then .ok .mode6
  else if code = 16 then .ok .mode16
  else .error (.unsupportedError (.unsupportedModeCode code))

/-- Modelled from the spec: the states of the Section Decoding State
Machine (spec §4.5), absent from the sources (only the data-only
`StripDecodeState` exists). -/
inductive DecodeState where
  | notStarted
  | decoding (current_section total_sections next_byte_offset : Nat)
  | done
  | failed (e : MrcError)
deriving Repr

/-- Modelled from the spec: the outcome a single sequential decode call
reports to the caller — one decoded section, the distinct end-of-volume
signal, or a failure. -/
inductive DecodeOutput where
  | section (buf : List Nat)
  | endOfVolume
  | failure (e : MrcError)
deriving Repr

/-- Modelled from the spec: one sequential decode call of the Section
Decoding State Machine (spec §4.5). `nz` is the total section count,
`sectionBytes` the constant byte length of one section, `dataStart` the
pixel-data start offset. The call returns the new machine state, the
stream state after the call, and the reported outcome:
* `NotStarted → Decoding` on the first call (then handled as `Decoding`);
* `Decoding → Decoding` on a successful section read, advancing the
  section index and byte offset;
* `Decoding → Done` when all sections are consumed; `Done` keeps
  returning the end-of-volume signal, not an error;
* any failure during a section read moves to `Failed` with the error
  recorded, and `Failed` re-returns the recorded failure verbatim without
  reading the stream. -/
def decode_step (sectionBytes : Nat) (cur total off : Nat) (s : StreamState) :
    DecodeState × StreamState × DecodeOutput :=
  if cur = total then
    (.done, s, .endOfVolume)
  else
    match read_exact ⟨s.data, off⟩ sectionBytes with
    | .error e =>
      (.failed (.ioError e), s, .failure (.ioError e))
    | .ok (bytes, s1) =>
      (.decoding (cur + 1) total (off + sectionBytes), s1, .section bytes)

/-- Modelled from the spec: dispatch of one sequential decode call on the
current machine state (see `decode_step` for the in-progress behaviour). -/
def decode_next (nz sectionBytes dataStart : Nat) :
    DecodeState → StreamState → DecodeState × StreamState × DecodeOutput
  | .notStarted, s => decode_step sectionBytes 0 nz dataStart s
  | .decoding cur total off, s => decode_step sectionBytes cur total off s
  | .done, s => (.done, s, .endOfVolume)
  | .failed e, s => (.failed e, s, .failure e)

/-- Repeated sequential decode calls: the machine state and stream after
`k` further calls. -/
def decode_iter (nz sectionBytes dataStart : Nat) :
    Nat → DecodeState → StreamState → DecodeState × StreamState
  | 0, st, s => (st, s)
  | k + 1, st, s =>
    match decode_next nz sectionBytes dataStart st s with
    | (st1, s1, _) => decode_iter nz sectionBytes dataStart k st1 s1

/-- The stream constructed over 224 bytes that form a well-formed MRC fixed
header up to its magic and machine stamp: `"MAP "` at byte offset 208 and
the big-endian machine stamp `0x11 0x11 0x00 0x00` at offset 212. -/
def beStampStream : StreamState :=
  ⟨List.replicate 208 0 ++ [77, 65, 80, 32] ++ [17, 17, 0, 0] ++
     List.replicate 8 0, 0⟩

theorem fromLeBytes_nil : fromLeBytes [] = 0 := rfl

theorem fromLeBytes_cons (b : Nat) (bs : List Nat) :
    fromLeBytes (b :: bs) = b + 256 * fromLeBytes bs := rfl

/-- Little-endian byte decomposition inverts the little-endian value of a
byte list. -/
theorem toLeBytes_fromLeBytes (bs : List Nat) (hb : ∀ b ∈ bs, b < 256) :
    toLeBytes bs.length (fromLeBytes bs) = bs := by
  induction bs with
  | nil => rfl
  | cons b t ih =>
    have hblt : b < 256 := hb b (List.mem_cons_self b t)
    have hmod : (b + 256 * fromLeBytes t) % 256 = b := by omega
    have hdiv : (b + 256 * fromLeBytes t) / 256 = fromLeBytes t := by omega
    simp only [List.length_cons, toLeBytes, fromLeBytes_cons, hmod, hdiv]
    exact congrArg (b :: ·) (ih fun x hx => hb x (List.mem_cons_of_mem b hx))

/-- `swap_bytes` turns the little-endian reading of `w` bytes into the
big-endian one. -/
theorem swapBytes_fromLeBytes (w : Nat) (bs : List Nat) (hlen : bs.length = w)
    (hb : ∀ b ∈ bs, b < 256) :
    swapBytes w (fromLeBytes bs) = fromBeBytes bs := by
  unfold swapBytes fromBeBytes
  rw [← hlen, toLeBytes_fromLeBytes bs hb]

/-- `swap_bytes` turns the big-endian reading of `w` bytes into the
little-endian one. -/
theorem swapBytes_fromBeBytes (w : Nat) (bs : List Nat) (hlen : bs.length = w)
    (hb : ∀ b ∈ bs, b < 256) :
    swapBytes w (fromBeBytes bs) = fromLeBytes bs := by
  unfold fromBeBytes
  rw [swapBytes_fromLeBytes w bs.reverse (by simpa using hlen)
      (fun b hbm => hb b (List.mem_reverse.mp hbm))]
  unfold fromBeBytes
  rw [List.reverse_reverse]

/-- The per-element correction applied to the native reading of one chunk
recovers the configured-order reading of that chunk, on either host. -/
theorem corrG_interpNative (host order : ByteOrder) (w : Nat) (bs : List Nat)
    (hlen : bs.length = w) (hb : ∀ b ∈ bs, b < 256) :
    corrG host order w (interpNative host bs) = interpOrder order bs := by
  cases host <;> cases order <;>
    simp only [corrG, interpNative, interpOrder, fromLe, fromBe,
      swapBytes_fromLeBytes w bs hlen hb, swapBytes_fromBeBytes w bs hlen hb]

/-- `read_exact` succeeds exactly when enough bytes remain, returning the
bytes at the cursor and advancing it. -/
theorem read_exact_ok (s : StreamState) (n : Nat)
    (h : s.pos + n ≤ s.data.length) :
    read_exact s n = .ok (bytesAt s n, ⟨s.data, s.pos + n⟩) := by
  simp [read_exact, bytesAt, h]

/-- The width-generic bulk read agrees with iterated scalar reads whenever
the source holds enough bytes, whichever the host byte order. -/
theorem readBulkG_eq_readSeqG (host order : ByteOrder) (w : Nat) (n : Nat) :
    ∀ s : StreamState, s.wf → s.pos + w * n ≤ s.data.length →
      readBulkG host order w n s = readSeqG order w n s := by
  induction n with
  | zero =>
    intro s hwf h
    unfold readBulkG
    rw [read_exact_ok s (w * 0) h]
    simp [readSeqG, chunkNative]
  | succ n ih =>
    intro s hwf h
    have hmul : w * (n + 1) = w * n + w := Nat.mul_succ w n
    have hw1 : s.pos + w ≤ s.data.length := by
      refine le_trans ?_ h
      rw [hmul]
      exact Nat.add_le_add_left (Nat.le_add_left w (w * n)) s.pos
    have hih : s.pos + w + w * n ≤ s.data.length := by
      refine le_trans (le_of_eq ?_) h
      rw [hmul]; ring
    have hA : (bytesAt s (w * (n + 1))).take w = bytesAt s w := by
      simp only [bytesAt, List.take_take]
      rw [min_eq_left (Nat.le_mul_of_pos_right w (Nat.succ_pos n))]
    have hB : (bytesAt s (w * (n + 1))).drop w
        = bytesAt ⟨s.data, s.pos + w⟩ (w * n) := by
      simp only [bytesAt, List.drop_take, List.drop_drop]
      rw [hmul, Nat.add_sub_cancel]
    have hlen : (bytesAt s w).length = w := by
      simp only [bytesAt, List.length_take, List.length_drop]
      omega
    have hbfw : ∀ b ∈ bytesAt s w, b < 256 := fun b hbm =>
      hwf b (List.drop_subset _ _ (List.take_subset _ _ hbm))
    have hwf1 : StreamState.wf ⟨s.data, s.pos + w⟩ := hwf
    unfold readBulkG
    rw [read_exact_ok s (w * (n + 1)) h]
    simp only [chunkNative, List.map_cons, hA, hB]
    rw [corrG_interpNative host order w (bytesAt s w) hlen hbfw]
    simp only [readSeqG, readScalarG, read_exact_ok s w hw1]
    rw [← ih ⟨s.data, s.pos + w⟩ hwf1 hih]
    simp only [readBulkG, read_exact_ok ⟨s.data, s.pos + w⟩ (w * n) hih]
    rw [show s.pos + w * (n + 1) = s.pos + w + w * n from by rw [hmul]; ring]

theorem read_u16_eq_scalarG (order : ByteOrder) (s : StreamState) :
    read_u16 order s = readScalarG order 2 s := rfl

theorem read_u32_eq_scalarG (order : ByteOrder) (s : StreamState) :
    read_u32 order s = readScalarG order 4 s := rfl

theorem read_u64_eq_scalarG (order : ByteOrder) (s : StreamState) :
    read_u64 order s = readScalarG order 8 s := rfl

theorem read_f32_eq_scalarG (order : ByteOrder) (s : StreamState) :
    read_f32 order s = readScalarG order 4 s := rfl

theorem read_f64_eq_scalarG (order : ByteOrder) (s : StreamState) :
    read_f64 order s = readScalarG order 8 s := rfl

theorem read_u16_into_eq_bulkG (host order : ByteOrder) (n : Nat)
    (s : StreamState) : read_u16_into host order n s = readBulkG host order 2 n s := by
  cases order <;> rfl

theorem read_u32_into_eq_bulkG (host order : ByteOrder) (n : Nat)
    (s : StreamState) : read_u32_into host order n s = readBulkG host order 4 n s := by
  cases order <;> rfl

theorem read_u64_into_eq_bulkG (host order : ByteOrder) (n : Nat)
    (s : StreamState) : read_u64_into host order n s = readBulkG host order 8 n s := by
  cases order <;> rfl

theorem read_f32_into_eq_bulkG (host order : ByteOrder) (n : Nat)
    (s : StreamState) : read_f32_into host order n s = readBulkG host order 4 n s := by
  cases order <;> rfl

theorem read_f64_into_eq_bulkG (host order : ByteOrder) (n : Nat)
    (s : StreamState) : read_f64_into host order n s = readBulkG host order 8 n s := by
  cases order <;> rfl

theorem read_u16_seq_eq_seqG (order : ByteOrder) (n : Nat) :
    ∀ s : StreamState, read_u16_seq order n s = readSeqG order 2 n s := by
  induction n with
  | zero => intro s; rfl
  | succ n ih =>
    intro s
    simp only [read_u16_seq, readSeqG, read_u16_eq_scalarG, ih]

theorem read_u32_seq_eq_seqG (order : ByteOrder) (n : Nat) :
    ∀ s : StreamState, read_u32_seq order n s = readSeqG order 4 n s := by
  induction n with
  | zero => intro s; rfl
  | succ n ih =>
    intro s
    simp only [read_u32_seq, readSeqG, read_u32_eq_scalarG, ih]

theorem read_u64_seq_eq_seqG (order : ByteOrder) (n : Nat) :
    ∀ s : StreamState, read_u64_seq order n s = readSeqG order 8 n s := by
  induction n with
  | zero => intro s; rfl
  | succ n ih =>
    intro s
    simp only [read_u64_seq, readSeqG, read_u64_eq_scalarG, ih]

theorem read_f32_seq_eq_seqG (order : ByteOrder) (n : Nat) :
    ∀ s : StreamState, read_f32_seq order n s = readSeqG order 4 n s := by
  induction n with
  | zero => intro s; rfl
  | succ n ih =>
    intro s
    simp only [read_f32_seq, readSeqG, read_f32_eq_scalarG, ih]

theorem read_f64_seq_eq_seqG (order : ByteOrder) (n : Nat) :
    ∀ s : StreamState, read_f64_seq order n s = readSeqG order 8 n s := by
  induction n with
  | zero => intro s; rfl
  | succ n ih =>
    intro s
    simp only [read_f64_seq, readSeqG, read_f64_eq_scalarG, ih]

/-- C3: each `DecodingResult::new_*` constructor returns `LimitsExceeded`
exactly when the requested element count times the element byte width
exceeds `limits.decoding_buffer_size`, and otherwise returns a zero-filled
buffer of exactly the requested length. The source compares
`size > decoding_buffer_size / width`, which over the naturals is exactly
`size * width > decoding_buffer_size`; no multiplication is performed, so
arithmetic overflow cannot produce a false pass. -/
theorem c3_new_buffers_guard_limits_exactly (size : Nat) (limits : Limits) :
    (DecodingResult.new_u8 size limits =
      if size * 1 > limits.decoding_buffer_size then .error .limitsExceeded
      else .ok (.u8 (List.replicate size 0))) ∧
    (DecodingResult.new_u16 size limits =
      if size * 2 > limits.decoding_buffer_size then .error .limitsExceeded
      else .ok (.u16 (List.replicate size 0))) ∧
    (DecodingResult.new_u32 size limits =
      if size * 4 > limits.decoding_buffer_size then .error .limitsExceeded
      else .ok (.u32 (List.replicate size 0))) ∧
    (DecodingResult.new_u64 size limits =
      if size * 8 > limits.decoding_buffer_size then .error .limitsExceeded
      else .ok (.u64 (List.replicate size 0))) ∧
    (DecodingResult.new_f32 size limits =
      if size * 4 > limits.decoding_buffer_size then .error .limitsExceeded
      else .ok (.f32 (List.replicate size 0))) ∧
    (DecodingResult.new_f64 size limits =
      if size * 8 > limits.decoding_buffer_size then .error .limitsExceeded
      else .ok (.f64 (List.replicate size 0))) ∧
    (List.replicate size (0 : Nat)).length = size := by
  have hdiv : ∀ k : Nat, 0 < k →
      (limits.decoding_buffer_size / k < size ↔
        limits.decoding_buffer_size < size * k) := fun k hk =>
    Nat.div_lt_iff_lt_mul hk
  refine ⟨?_, ?_, ?_, ?_, ?_, ?_, List.length_replicate size 0⟩
  · simp only [DecodingResult.new_u8, gt_iff_lt, Nat.mul_one]
  · simp only [DecodingResult.new_u16, gt_iff_lt, hdiv 2 (by norm_num)]
  · simp only [DecodingResult.new_u32, gt_iff_lt, hdiv 4 (by norm_num)]
  · simp only [DecodingResult.new_u64, gt_iff_lt, hdiv 8 (by norm_num)]
  · simp only [DecodingResult.new_f32, gt_iff_lt, hdiv 4 (by norm_num)]
  · simp only [DecodingResult.new_f64, gt_iff_lt, hdiv 8 (by norm_num)]

/-- The generic scalar read succeeds exactly when its width fits in the
remaining bytes, returning the configured-order value of those bytes and
advancing the cursor by the width. -/
theorem readScalarG_char (order : ByteOrder) (w : Nat) (s : StreamState) :
    readScalarG order w s =
      if s.pos + w ≤ s.data.length then
        .ok (interpOrder order (bytesAt s w), ⟨s.data, s.pos + w⟩)
      else .error .unexpectedEof := by
  by_cases h : s.pos + w ≤ s.data.length
  · rw [if_pos h]
    unfold readScalarG
    rw [read_exact_ok s w h]
  · rw [if_neg h]
    unfold readScalarG read_exact
    rw [if_neg h]

/-- C4: for every configured byte order, each scalar read consumes exactly
the byte width of its type, fails with an I/O error on a short read, and
on success returns the configured-order conversion of exactly the bytes it
consumed (signed reads as the two-complement reinterpretation, float reads
as the bit pattern handed to `from_bits`). -/
theorem c4_scalar_reads_exact (order : ByteOrder) (s : StreamState) :
    (read_u16 order s =
      if s.pos + 2 ≤ s.data.length then
        .ok (interpOrder order (bytesAt s 2), ⟨s.data, s.pos + 2⟩)
      else .error .unexpectedEof) ∧
    (read_i16 order s =
      if s.pos + 2 ≤ s.data.length then
        .ok (toSigned 16 (interpOrder order (bytesAt s 2)), ⟨s.data, s.pos + 2⟩)
      else .error .unexpectedEof) ∧
    (read_u32 order s =
      if s.pos + 4 ≤ s.data.length then
        .ok (interpOrder order (bytesAt s 4), ⟨s.data, s.pos + 4⟩)
      else .error .unexpectedEof) ∧
    (read_i32 order s =
      if s.pos + 4 ≤ s.data.length then
        .ok (toSigned 32 (interpOrder order (bytesAt s 4)), ⟨s.data, s.pos + 4⟩)
      else .error .unexpectedEof) ∧
    (read_u64 order s =
      if s.pos + 8 ≤ s.data.length then
        .ok (interpOrder order (bytesAt s 8), ⟨s.data, s.pos + 8⟩)
      else .error .unexpectedEof) ∧
    (read_f32 order s =
      if s.pos + 4 ≤ s.data.length then
        .ok (interpOrder order (bytesAt s 4), ⟨s.data, s.pos + 4⟩)
      else .error .unexpectedEof) ∧
    (read_f64 order s =
      if s.pos + 8 ≤ s.data.length then
        .ok (interpOrder order (bytesAt s 8), ⟨s.data, s.pos + 8⟩)
      else .error .unexpectedEof) := by
  refine ⟨?_, ?_, ?_, ?_, ?_, ?_, ?_⟩
  · rw [read_u16_eq_scalarG, readScalarG_char]
  · by_cases h : s.pos + 2 ≤ s.data.length
    · rw [if_pos h]; unfold read_i16; rw [read_exact_ok s 2 h]
      cases order <;> rfl
    · rw [if_neg h]; unfold read_i16 read_exact; rw [if_neg h]
  · rw [read_u32_eq_scalarG, readScalarG_char]
  · by_cases h : s.pos + 4 ≤ s.data.length
    · rw [if_pos h]; unfold read_i32; rw [read_exact_ok s 4 h]
      cases order <;> rfl
    · rw [if_neg h]; unfold read_i32 read_exact; rw [if_neg h]
  · rw [read_u64_eq_scalarG, readScalarG_char]
  · rw [read_f32_eq_scalarG, readScalarG_char]
  · rw [read_f64_eq_scalarG, readScalarG_char]

/-- C9: the default `Limits` sets the decoded-buffer ceiling to 256 MiB,
the metadata-value ceiling to 1 MiB and the intermediate-read ceiling to
128 MiB. -/
theorem c9_default_limits :
    Limits.default.decoding_buffer_size = 256 * 1024 * 1024 ∧
    Limits.default.ifd_value_size = 1024 * 1024 ∧
    Limits.default.intermediate_buffer_size = 128 * 1024 * 1024 :=
  ⟨rfl, rfl, rfl⟩

/-- C10: for every underlying byte source, `Decoder::new` returns `Ok`
without reading or seeking the source (the wrapped stream is returned
untouched), because `read_header` and `next_image` are no-op stubs; the
constructed decoder has no header, little-endian byte order, zero
dimensions, default limits, and `dimensions()` returns `Ok((0, 0))`. -/
theorem c10_new_never_reads_and_never_fails (r : StreamState) :
    ∃ d : Decoder, Decoder.new r = .ok d ∧
      d.reader = SmartReader.wrap r .littleEndian ∧
      d.byte_order = .littleEndian ∧
      d.header = none ∧
      d.width = 0 ∧
      d.height = 0 ∧
      d.limits = Limits.default ∧
      d.strip_decoder = none ∧
      d.dimensions = .ok (0, 0) ∧
      d.read_header = .ok d ∧
      d.next_image = .ok d :=
  ⟨_, rfl, rfl, rfl, rfl, rfl, rfl, rfl, rfl, rfl, rfl, rfl⟩

/-- C1 (divergence witness): on an input whose magic bytes are not
`"MAP "` — here 1024 zero bytes — `Decoder::new` succeeds with no header
instead of failing with a format error, because `read_header` is an
unimplemented `TODO` stub. -/
theorem c1_stub_accepts_bad_magic :
    ∃ d : Decoder, Decoder.new ⟨List.replicate 1024 0, 0⟩ = .ok d ∧
      d.header = none :=
  ⟨_, rfl, rfl⟩

/-- C2 (divergence witness): on a stream carrying the magic `"MAP "` and
the big-endian machine stamp `0x11 0x11 0x00 0x00` at their fixed offsets,
the constructed decoder still has little-endian byte order and the stream
was never read: the machine-stamp mapping is not implemented. -/
theorem c2_stub_ignores_machine_stamp :
    ∃ d : Decoder, Decoder.new beStampStream = .ok d ∧
      d.byte_order = .littleEndian ∧
      d.reader.byte_order = .littleEndian ∧
      d.reader.reader = beStampStream :=
  ⟨_, rfl, rfl, rfl, rfl⟩

/-- C6 (divergence witness): on an empty source, where header parsing
would have to fail with an I/O error, `Decoder::new` succeeds and hands
the caller a decoder whose `header` is `None` — a partially-initialized
decoder — because `read_header` is an unimplemented `TODO` stub. -/
theorem c6_stub_returns_decoder_without_header :
    ∃ d : Decoder, Decoder.new ⟨[], 0⟩ = .ok d ∧
      d.header = none ∧
      d.reader.reader = ⟨[], 0⟩ :=
  ⟨_, rfl, rfl, rfl⟩

/-- C5: whenever the source holds the required bytes, each bulk read
(`read_*_into` on a pre-sized buffer of length `n`) produces exactly the
element values, and leaves the source cursor at exactly the position, that
`n` successive calls of the corresponding scalar read would — for either
configured byte order and on a host of either native byte order. -/
theorem c5_bulk_reads_refine_scalar_reads (host order : ByteOrder) (n : Nat)
    (s : StreamState) (hwf : s.wf) :
    (s.pos + 2 * n ≤ s.data.length →
      read_u16_into host order n s = read_u16_seq order n s) ∧
    (s.pos + 4 * n ≤ s.data.length →
      read_u32_into host order n s = read_u32_seq order n s) ∧
    (s.pos + 8 * n ≤ s.data.length →
      read_u64_into host order n s = read_u64_seq order n s) ∧
    (s.pos + 4 * n ≤ s.data.length →
      read_f32_into host order n s = read_f32_seq order n s) ∧
    (s.pos + 8 * n ≤ s.data.length →
      read_f64_into host order n s = read_f64_seq order n s) := by
  refine ⟨fun h => ?_, fun h => ?_, fun h => ?_, fun h => ?_, fun h => ?_⟩
  · rw [read_u16_into_eq_bulkG, read_u16_seq_eq_seqG]
    exact readBulkG_eq_readSeqG host order 2 n s hwf h
  · rw [read_u32_into_eq_bulkG, read_u32_seq_eq_seqG]
    exact readBulkG_eq_readSeqG host order 4 n s hwf h
  · rw [read_u64_into_eq_bulkG, read_u64_seq_eq_seqG]
    exact readBulkG_eq_readSeqG host order 8 n s hwf h
  · rw [read_f32_into_eq_bulkG, read_f32_seq_eq_seqG]
    exact readBulkG_eq_readSeqG host order 4 n s hwf h
  · rw [read_f64_into_eq_bulkG, read_f64_seq_eq_seqG]
    exact readBulkG_eq_readSeqG host order 8 n s hwf h

/-- Witness for C5: a big-endian host reading one little-endian element of
each width from a concrete 8-byte stream. -/
theorem c5_bulk_reads_refine_scalar_reads_witness :
    read_u16_into .bigEndian .littleEndian 1 ⟨[1, 2, 3, 4, 5, 6, 7, 8], 0⟩
      = read_u16_seq .littleEndian 1 ⟨[1, 2, 3, 4, 5, 6, 7, 8], 0⟩ ∧
    read_u32_into .bigEndian .littleEndian 1 ⟨[1, 2, 3, 4, 5, 6, 7, 8], 0⟩
      = read_u32_seq .littleEndian 1 ⟨[1, 2, 3, 4, 5, 6, 7, 8], 0⟩ ∧
    read_u64_into .bigEndian .littleEndian 1 ⟨[1, 2, 3, 4, 5, 6, 7, 8], 0⟩
      = read_u64_seq .littleEndian 1 ⟨[1, 2, 3, 4, 5, 6, 7, 8], 0⟩ ∧
    read_f32_into .bigEndian .littleEndian 1 ⟨[1, 2, 3, 4, 5, 6, 7, 8], 0⟩
      = read_f32_seq .littleEndian 1 ⟨[1, 2, 3, 4, 5, 6, 7, 8], 0⟩ ∧
    read_f64_into .bigEndian .littleEndian 1 ⟨[1, 2, 3, 4, 5, 6, 7, 8], 0⟩
      = read_f64_seq .littleEndian 1 ⟨[1, 2, 3, 4, 5, 6, 7, 8], 0⟩ :=
  have hc := c5_bulk_reads_refine_scalar_reads .bigEndian .littleEndian 1
    ⟨[1, 2, 3, 4, 5, 6, 7, 8], 0⟩ (by unfold StreamState.wf; decide)
  ⟨hc.1 (by decide), hc.2.1 (by decide), hc.2.2.1 (by decide),
    hc.2.2.2.1 (by decide), hc.2.2.2.2 (by decide)⟩

/-- C7: resolving any wire mode code outside the recognized set
0, 1, 2, 3, 4, 6, 16 fails with an unsupported-feature error naming the
offending code, and never with a format error. -/
theorem c7_unrecognized_mode_is_unsupported (code : Int)
    (h : code ≠ 0 ∧ code ≠ 1 ∧ code ≠ 2 ∧ code ≠ 3 ∧ code ≠ 4 ∧
      code ≠ 6 ∧ code ≠ 16) :
    Mode.resolve code =
      .error (.unsupportedError (.unsupportedModeCode code)) ∧
    ∀ e, Mode.resolve code ≠ .error (.formatError e) := by
  obtain ⟨h0, h1, h2, h3, h4, h6, h16⟩ := h
  have hres : Mode.resolve code =
      .error (.unsupportedError (.unsupportedModeCode code)) := by
    simp [Mode.resolve, h0, h1, h2, h3, h4, h6, h16]
  refine ⟨hres, fun e hcontra => ?_⟩
  rw [hres] at hcontra
  exact absurd hcontra (by simp)

/-- Witness for C7: the spec example `mode = 99`. -/
theorem c7_unrecognized_mode_is_unsupported_witness :
    Mode.resolve 99 =
      .error (.unsupportedError (.unsupportedModeCode 99)) ∧
    ∀ e, Mode.resolve 99 ≠ .error (.formatError e) :=
  c7_unrecognized_mode_is_unsupported 99 (by norm_num)

/-- A `decode_step` call that reports a failure leaves the machine in the
`Failed` state holding exactly that error. -/
theorem decode_step_failure (sectionBytes cur total off : Nat)
    (s : StreamState) (st1 : DecodeState) (s1 : StreamState) (e : MrcError)
    (h : decode_step sectionBytes cur total off s = (st1, s1, .failure e)) :
    st1 = .failed e := by
  unfold decode_step at h
  split at h
  · exact absurd h (by simp)
  · split at h
    · simp only [Prod.mk.injEq] at h
      obtain ⟨h1, -, h3⟩ := h
      injection h3 with he
      rw [← h1, he]
    · exact absurd h (by simp)

/-- C8: a decode call that reports a failure leaves the machine in the
`Failed` state with that error recorded, and from `Failed` every number of
subsequent decode calls leaves the state, the stream and the reported
outcome unchanged: the identical failure is re-returned and the stream is
never read again. -/
theorem c8_failure_is_recorded_and_idempotent (nz sectionBytes dataStart : Nat)
    (s : StreamState) :
    (∀ st st1 s1 e,
      decode_next nz sectionBytes dataStart st s = (st1, s1, .failure e) →
        st1 = .failed e) ∧
    (∀ e k s2, decode_iter nz sectionBytes dataStart k (.failed e) s2
        = (.failed e, s2)) ∧
    (∀ e s2, decode_next nz sectionBytes dataStart (.failed e) s2
        = (.failed e, s2, .failure e)) := by
  refine ⟨?_, ?_, fun e s2 => rfl⟩
  · intro st st1 s1 e hst
    cases st with
    | notStarted => exact decode_step_failure _ _ _ _ _ _ _ _ hst
    | decoding cur total off => exact decode_step_failure _ _ _ _ _ _ _ _ hst
    | done => exact absurd hst (by simp [decode_next])
    | failed e0 =>
      simp only [decode_next, Prod.mk.injEq] at hst
      obtain ⟨hst1, -, hout⟩ := hst
      injection hout with he
      rw [← hst1, he]
  · intro e k
    induction k with
    | zero => intro s2; rfl
    | succ k ih =>
      intro s2
      unfold decode_iter decode_next
      exact ih s2

/-- Witness for C8: a truncated stream fails the first section read of a
2-section volume, and three further calls keep the recorded failure with
the stream untouched. -/
theorem c8_failure_is_recorded_and_idempotent_witness :
    DecodeState.failed (.ioError .unexpectedEof)
      = DecodeState.failed (.ioError .unexpectedEof) ∧
    decode_iter 2 4 0 3 (.failed (.ioError .unexpectedEof)) ⟨[], 0⟩
      = (.failed (.ioError .unexpectedEof), ⟨[], 0⟩) ∧
    decode_next 2 4 0 (.failed (.ioError .unexpectedEof)) ⟨[], 0⟩
      = (.failed (.ioError .unexpectedEof), ⟨[], 0⟩,
          .failure (.ioError .unexpectedEof)) :=
  have hc := c8_failure_is_recorded_and_idempotent 2 4 0 ⟨[], 0⟩
  ⟨hc.1 (.decoding 0 2 0) (.failed (.ioError .unexpectedEof)) ⟨[], 0⟩
      (.ioError .unexpectedEof) rfl,
    hc.2.1 (.ioError .unexpectedEof) 3 ⟨[], 0⟩,
    hc.2.2 (.ioError .unexpectedEof) ⟨[], 0⟩⟩
